import Mathlib

/-!
Verification of the MailTester key-manager engine (`src/keyManager.js`, the
MongoDB variant bundled with `keyQueue.js`) against its natural-language
specification.  The JavaScript module is shallowly embedded: the MongoDB
`keys` collection becomes a `List KeyDoc` (in document order), timestamps and
counters become `Nat`, and each engine operation becomes a pure function from
a store (plus the sampled clock values) to a store.  Concurrent interference
between the snapshot read and the compare-and-set walk inside
`getAvailableKey` is modelled by an explicit interference hook; the purely
sequential instantiation passes the identity function.
-/

/-- One document of the MongoDB `keys` collection.  Field names and order
follow the object literal built by `registerKey`.  The legacy `token` and
`lastRefresh` fields (removed by `removeLegacyTokenFields` and `$unset` in
`registerKey`) are kept as `Option` values so that their removal is
representable. -/
structure KeyDoc where
  subscriptionId : String
  plan : String
  usedInWindow : Nat
  windowStart : Nat
  usedDaily : Nat
  dayStart : Nat
  status : String
  rateLimit30s : Nat
  dailyLimit : Nat
  avgRequestIntervalMs : Nat
  lastUsed : Nat
  token : Option String := none
  lastRefresh : Option Nat := none
deriving Repr, DecidableEq

/-- The constant `WINDOW_MS = 30_000` from `keyManager.js`. -/
def WINDOW_MS : Nat := 30000

/-- The constant `DAY_MS = 86_400_000` from `keyManager.js`. -/
def DAY_MS : Nat := 86400000

/-- Embedding of JavaScript `String.prototype.toLowerCase` for the ASCII plan
names used by the service (`Char.toLower` lowers exactly the ASCII range). -/
def jsToLower (s : String) : String := ⟨s.data.map Char.toLower⟩

/-- Result record of the `getRateLimits` helper. -/
structure RateLimits where
  rateLimit30s : Nat
  dailyLimit : Nat
  avgRequestIntervalMs : Nat
deriving Repr, DecidableEq

/-- Embedding of `getRateLimits(plan)`: plan `pro` maps to 35 per window and
100000 per day, anything else defaults to `ultimate` with 170 and 500000; the
average interval is `Math.floor((30 * 1000) / rateLimit30s)` in both
branches. -/
def getRateLimits (plan : String) : RateLimits :=
  let normalized := jsToLower plan
  if normalized = "pro" then
    let rateLimit30s := 35
    let dailyLimit := 100000
    let avgRequestIntervalMs := 30 * 1000 / rateLimit30s
    { rateLimit30s := rateLimit30s, dailyLimit := dailyLimit,
      avgRequestIntervalMs := avgRequestIntervalMs }
  else
    let rateLimit30s := 170
    let dailyLimit := 500000
    let avgRequestIntervalMs := 30 * 1000 / rateLimit30s
    { rateLimit30s := rateLimit30s, dailyLimit := dailyLimit,
      avgRequestIntervalMs := avgRequestIntervalMs }

/-- MongoDB `updateOne(filter, update)`: apply `f` to the first document
matching `p`, leaving everything else in place. -/
def updateFirst (p : KeyDoc → Bool) (f : KeyDoc → KeyDoc) : List KeyDoc → List KeyDoc
  | [] => []
  | d :: rest => if p d then f d :: rest else d :: updateFirst p f rest

/-- MongoDB `findOneAndUpdate(filter, update, { returnDocument: 'after' })`:
update the first matching document and return its post-image, or return
`none` and leave the store untouched when nothing matches. -/
def findOneAndUpdate (p : KeyDoc → Bool) (f : KeyDoc → KeyDoc) :
    List KeyDoc → Option KeyDoc × List KeyDoc
  | [] => (none, [])
  | d :: rest =>
    if p d then (some (f d), f d :: rest)
    else
      let r := findOneAndUpdate p f rest
      (r.1, d :: r.2)

/-- Update object of `registerKey`'s existing-key branch: `$set` of `plan`,
`rateLimit30s`, `dailyLimit`, `avgRequestIntervalMs` plus `$unset` of the
legacy `token` and `lastRefresh` fields. -/
def applyRegisterUpdate (normalizedPlan : String) (d : KeyDoc) : KeyDoc :=
  let limits := getRateLimits normalizedPlan
  { d with
    plan := normalizedPlan
    rateLimit30s := limits.rateLimit30s
    dailyLimit := limits.dailyLimit
    avgRequestIntervalMs := limits.avgRequestIntervalMs
    token := none
    lastRefresh := none }

/-- Embedding of `registerKey(subscriptionId, plan)` at clock value `now`.
An empty id throws (`Except.error`); a fresh id inserts a document with
zeroed counters, both anchors at `now`, status `active` and `lastUsed = 0`;
an existing id gets only plan and limits rewritten via
`applyRegisterUpdate`.  `String(plan || 'ultimate').toLowerCase()` becomes
the conditional on the empty string. -/
def registerKey (store : List KeyDoc) (subscriptionId plan : String) (now : Nat) :
    Except String (List KeyDoc) :=
  if subscriptionId = "" then .error "subscriptionId is required"
  else
    let normalizedPlan := jsToLower (if plan = "" then "ultimate" else plan)
    let limits := getRateLimits normalizedPlan
    match store.find? (fun d => d.subscriptionId == subscriptionId) with
    | none =>
      .ok (store ++ [{
        subscriptionId := subscriptionId
        plan := normalizedPlan
        usedInWindow := 0
        windowStart := now
        usedDaily := 0
        dayStart := now
        status := "active"
        rateLimit30s := limits.rateLimit30s
        dailyLimit := limits.dailyLimit
        avgRequestIntervalMs := limits.avgRequestIntervalMs
        lastUsed := 0 }])
    | some _ =>
      .ok (updateFirst (fun d => d.subscriptionId == subscriptionId)
        (applyRegisterUpdate normalizedPlan) store)

/-- Embedding of `getAllKeysStatus()`: every stored document with the
internal `_id` and legacy `token`/`lastRefresh` fields stripped. -/
def getAllKeysStatus (store : List KeyDoc) : List KeyDoc :=
  store.map (fun d => { d with token := none, lastRefresh := none })

/-- Check `now - doc.windowStart >= WINDOW_MS` from the candidate loop
(truncated `Nat` subtraction agrees with the JavaScript comparison for both
sign cases of the difference). -/
def windowExpiredAt (now : Nat) (d : KeyDoc) : Bool :=
  decide (WINDOW_MS ≤ now - d.windowStart)

/-- Check `now - doc.dayStart >= DAY_MS` from the candidate loop. -/
def dayExpiredAt (now : Nat) (d : KeyDoc) : Bool :=
  decide (DAY_MS ≤ now - d.dayStart)

/-- Candidate record pushed by the selection loop of `getAvailableKey`. -/
structure Candidate where
  doc : KeyDoc
  windowExpired : Bool
  dayExpired : Bool
  windowCount : Nat
  dayCount : Nat
deriving Repr, DecidableEq

/-- Candidate data computed from one snapshot document: effective counts are
zero once the corresponding window has expired. -/
def candidateOf (now : Nat) (d : KeyDoc) : Candidate :=
  { doc := d
    windowExpired := windowExpiredAt now d
    dayExpired := dayExpiredAt now d
    windowCount := if windowExpiredAt now d then 0 else d.usedInWindow
    dayCount := if dayExpiredAt now d then 0 else d.usedDaily }

/-- Filter of the candidate loop: status must be `active`, an un-expired day
window must be strictly under the daily limit, and an un-expired 30 s window
must be strictly under the window limit. -/
def isEligible (now : Nat) (d : KeyDoc) : Bool :=
  let c := candidateOf now d
  d.status == "active" &&
    !(!c.dayExpired && decide (d.dailyLimit ≤ c.dayCount)) &&
    !(!c.windowExpired && decide (d.rateLimit30s ≤ c.windowCount))

/-- Condition under which the candidate loop issues the best-effort
`updateOne` that flips a key to `exhausted`: an active key whose un-expired
day count has reached the daily limit. -/
def shouldMarkExhausted (now : Nat) (d : KeyDoc) : Bool :=
  let c := candidateOf now d
  d.status == "active" && (!c.dayExpired && decide (d.dailyLimit ≤ c.dayCount))

/-- Candidates of one snapshot, in document order, exactly the records the
loop pushes. -/
def eligibleCandidates (now : Nat) (docs : List KeyDoc) : List Candidate :=
  (docs.filter (isEligible now)).map (candidateOf now)

/-- Shared shape of the maintenance passes: walk the snapshot `docs` and, for
each snapshot document satisfying `cond`, run `updateOne` keyed on its
`subscriptionId` against the live store. -/
def sweepDocs (cond : KeyDoc → Bool) (upd : KeyDoc → KeyDoc → KeyDoc) :
    List KeyDoc → List KeyDoc → List KeyDoc
  | [], store => store
  | doc :: rest, store =>
    if cond doc then
      sweepDocs cond upd rest
        (updateFirst (fun d => d.subscriptionId == doc.subscriptionId) (upd doc) store)
    else sweepDocs cond upd rest store

/-- Side writes of the candidate loop: each snapshot document that trips the
daily-limit check gets its status set to `exhausted` by an `updateOne` keyed
on the id. -/
def markExhausted (now : Nat) (docs store : List KeyDoc) : List KeyDoc :=
  sweepDocs (shouldMarkExhausted now) (fun _ d => { d with status := "exhausted" }) docs store

/-- Comparator `(a, b) => a.windowCount - b.windowCount` of the candidate
sort. -/
def candLE (a b : Candidate) : Prop := a.windowCount ≤ b.windowCount

instance : DecidableRel candLE := fun x y => Nat.decLe x.windowCount y.windowCount

instance : IsTotal Candidate candLE := ⟨fun x y => Nat.le_total x.windowCount y.windowCount⟩

instance : IsTrans Candidate candLE := ⟨fun _ _ _ => Nat.le_trans⟩

/-- The `candidates.sort((a, b) => a.windowCount - b.windowCount)` call:
JavaScript `Array.prototype.sort` is stable and ascending on this comparator,
which is exactly insertion sort on `candLE`. -/
def rankCandidates (cs : List Candidate) : List Candidate :=
  List.insertionSort candLE cs

/-- Compare-and-set filter of the reservation update: it pins
`subscriptionId`, both counters, both anchors and `status` to the snapshot
values. -/
def casFilterMatches (snap d : KeyDoc) : Bool :=
  d.subscriptionId == snap.subscriptionId &&
    d.usedInWindow == snap.usedInWindow &&
    d.windowStart == snap.windowStart &&
    d.usedDaily == snap.usedDaily &&
    d.dayStart == snap.dayStart &&
    d.status == snap.status

/-- The `$set` object of the reservation update, computed from the candidate
and the per-candidate `attemptTime` sample. -/
def casUpdate (attemptTime : Nat) (c : Candidate) (d : KeyDoc) : KeyDoc :=
  let newWindowCount := (if c.windowExpired then 0 else c.windowCount) + 1
  let newDayCount := (if c.dayExpired then 0 else c.dayCount) + 1
  let willExhaust := !c.dayExpired && decide (c.doc.dailyLimit ≤ newDayCount)
  { d with
    usedInWindow := newWindowCount
    windowStart := if c.windowExpired then attemptTime else c.doc.windowStart
    usedDaily := newDayCount
    dayStart := if c.dayExpired then attemptTime else c.doc.dayStart
    lastUsed := attemptTime
    status := if willExhaust then "exhausted" else "active" }

/-- Walk of the ranked candidate list: the first successful compare-and-set
wins and only `subscriptionId` and `plan` of the committed document are
returned to the caller. -/
def tryCandidates (attemptTime : Nat) : List Candidate → List KeyDoc →
    Option (String × String) × List KeyDoc
  | [], store => (none, store)
  | c :: rest, store =>
    let r := findOneAndUpdate (casFilterMatches c.doc) (casUpdate attemptTime c) store
    match r.1 with
    | some updatedDoc => (some (updatedDoc.subscriptionId, updatedDoc.plan), r.2)
    | none => tryCandidates attemptTime rest r.2

/-- Outcome of one iteration of the attempt loop: either the function
returns (`done`, possibly with `null`) or it falls through to the retry. -/
inductive AttemptStep where
  | done : Option (String × String) → AttemptStep
  | noCommit : AttemptStep
deriving Repr, DecidableEq

/-- One attempt of `getAvailableKey`: snapshot the store, return `null` on an
empty store, build candidates while flipping over-quota keys to `exhausted`,
return `null` when no candidate remains, otherwise rank the candidates and
walk their compare-and-set updates.  `interf` is the interference of
concurrent writers between the snapshot and the compare-and-set walk; the
sequential semantics passes the identity. -/
def getAvailableKeyAttempt (now : Nat) (interf : List KeyDoc → List KeyDoc)
    (store : List KeyDoc) : AttemptStep × List KeyDoc :=
  if store.isEmpty then (.done none, store)
  else
    let store1 := markExhausted now store store
    let cs := eligibleCandidates now store
    if cs.isEmpty then (.done none, store1)
    else
      let r := tryCandidates now (rankCandidates cs) (interf store1)
      match r.1 with
      | some reserved => (.done (some reserved), r.2)
      | none => (.noCommit, r.2)

/-- The `maxAttempts = 3` constant of `getAvailableKey`. -/
def maxAttempts : Nat := 3

/-- The 20 ms backoff slept between failed attempts
(`setTimeout(resolve, 20)`). -/
def retryBackoffMs : Nat := 20

/-- Result of a full `getAvailableKey` call: the value returned to the
caller, the final store, and the total time spent in inter-attempt
backoffs. -/
structure RunResult where
  reservation : Option (String × String)
  store : List KeyDoc
  sleptMs : Nat
deriving Repr, DecidableEq

/-- The retry loop of `getAvailableKey`: each attempt gets its own clock
sample and interference; a fall-through retries with a `retryBackoffMs`
backoff except after the final attempt, and exhausted fuel means `null`. -/
def getAvailableKeyLoop : Nat → List (Nat × (List KeyDoc → List KeyDoc)) →
    List KeyDoc → RunResult
  | 0, _, store => { reservation := none, store := store, sleptMs := 0 }
  | fuel + 1, envs, store =>
    let env := envs.headD (0, fun s => s)
    let r := getAvailableKeyAttempt env.1 env.2 store
    match r.1 with
    | .done reserved => { reservation := reserved, store := r.2, sleptMs := 0 }
    | .noCommit =>
      if fuel = 0 then { reservation := none, store := r.2, sleptMs := 0 }
      else
        let rest := getAvailableKeyLoop fuel envs.tail r.2
        { reservation := rest.reservation, store := rest.store,
          sleptMs := retryBackoffMs + rest.sleptMs }

/-- Embedding of `getAvailableKey()`; `envs` supplies the clock sample and
the concurrent interference of each of the up-to-`maxAttempts` attempts. -/
def getAvailableKey (envs : List (Nat × (List KeyDoc → List KeyDoc)))
    (store : List KeyDoc) : RunResult :=
  getAvailableKeyLoop maxAttempts envs store

/-- Sequential `getAvailableKey`: no concurrent writer interferes, each
attempt only samples the clock. -/
def getAvailableKeySeq (nows : List Nat) (store : List KeyDoc) : RunResult :=
  getAvailableKey (nows.map (fun t => (t, fun s => s))) store

/-- A sequence of sequential `getAvailableKey` calls: final store plus the
value each call returned. -/
def runCallsSeq : List (List Nat) → List KeyDoc →
    List KeyDoc × List (Option (String × String))
  | [], store => (store, [])
  | nows :: rest, store =>
    let r := getAvailableKeySeq nows store
    let tail := runCallsSeq rest r.store
    (tail.1, r.reservation :: tail.2)

/-- The `$set` object of `resetDailyForAll` for one elapsed snapshot
document: counters are cleared unconditionally, and `status` is included
exactly when the snapshot status is `exhausted`. -/
def resetDailyDocUpdate (now : Nat) (snap d : KeyDoc) : KeyDoc :=
  if snap.status == "exhausted" then
    { d with usedDaily := 0, dayStart := now, status := "active" }
  else
    { d with usedDaily := 0, dayStart := now }

/-- Embedding of `resetDailyForAll()`: for every snapshot document whose day
anchor is at least `DAY_MS` old, run the `updateOne` described by
`resetDailyDocUpdate`. -/
def resetDailyForAll (now : Nat) (store : List KeyDoc) : List KeyDoc :=
  sweepDocs (fun d => decide (DAY_MS ≤ now - d.dayStart)) (resetDailyDocUpdate now) store store

/-- Lexicographic comparison of two strings, character by character on code
points; used only to state the specification's ranking rule. -/
def charListLE : List Char → List Char → Bool
  | [], _ => true
  | _ :: _, [] => false
  | a :: as, b :: bs =>
    if a.val < b.val then true
    else if b.val < a.val then false
    else charListLE as bs

/-- Lexicographic string order for the specification's ranking rule. -/
def strLexLE (a b : String) : Bool := charListLE a.data b.data

/-- Ranking relation written down by the specification (not by the code):
ascending effective `usedInWindow`, ties broken by ascending `lastUsed`, then
by `subscriptionId` lexicographically. -/
def specRankLE (a b : Candidate) : Prop :=
  a.windowCount < b.windowCount ∨
    (a.windowCount = b.windowCount ∧
      (a.doc.lastUsed < b.doc.lastUsed ∨
        (a.doc.lastUsed = b.doc.lastUsed ∧
          strLexLE a.doc.subscriptionId b.doc.subscriptionId = true)))

instance : DecidableRel specRankLE := fun a b => by
  unfold specRankLE
  exact inferInstance

/-- Candidate ranking as the specification describes it, for comparison with
`rankCandidates`. -/
def specRankCandidates (cs : List Candidate) : List Candidate :=
  List.insertionSort specRankLE cs

/-- Entry of the limits-only projection served by `GET /limits`. -/
structure LimitsEntry where
  subscriptionId : String
  plan : String
  rateLimit30s : Nat
  dailyLimit : Nat
  avgRequestIntervalMs : Nat
  lastUsed : Nat
  nextRequestAllowedAt : Nat
deriving Repr, DecidableEq

/-- Modelled from the spec: the `keyManager.getKeyLimits` implementation that
the `/limits` route calls is missing from the available sources (only its
caller is present).  Section 4.5 defines the projection of one status entry
onto the limits columns, with `nextRequestAllowedAt = lastUsed +
avgIntervalMs`, zero when the key has never been used. -/
def limitsProjection (d : KeyDoc) : LimitsEntry :=
  { subscriptionId := d.subscriptionId
    plan := d.plan
    rateLimit30s := d.rateLimit30s
    dailyLimit := d.dailyLimit
    avgRequestIntervalMs := d.avgRequestIntervalMs
    lastUsed := d.lastUsed
    nextRequestAllowedAt :=
      if d.lastUsed = 0 then 0 else d.lastUsed + d.avgRequestIntervalMs }

/-- Modelled from the spec: `listLimits()` is the projection of
`listStatus()` (embedded as `getAllKeysStatus`) through `limitsProjection`,
entry by entry. -/
def getKeyLimits (store : List KeyDoc) : List LimitsEntry :=
  (getAllKeysStatus store).map limitsProjection

/-- Document produced by `registerKey` for a fresh `pro` key registered at
clock value 0. -/
def proKeyDoc : KeyDoc :=
  { subscriptionId := "single_key"
    plan := "pro"
    usedInWindow := 0
    windowStart := 0
    usedDaily := 0
    dayStart := 0
    status := "active"
    rateLimit30s := 35
    dailyLimit := 100000
    avgRequestIntervalMs := 857
    lastUsed := 0 }

/-- The same key after one committed reservation at clock value 1000. -/
def proKeyDocUsed : KeyDoc :=
  { proKeyDoc with usedInWindow := 1, usedDaily := 1, lastUsed := 1000 }

/-- Concurrent writer that bumps every window counter, invalidating every
pinned compare-and-set filter of the running attempt. -/
def bumpWindowCounters (s : List KeyDoc) : List KeyDoc :=
  s.map (fun d => { d with usedInWindow := d.usedInWindow + 1 })

/-- Three attempt environments in which a concurrent writer always races the
compare-and-set walk. -/
def contendedEnvs : List (Nat × (List KeyDoc → List KeyDoc)) :=
  [(1000, bumpWindowCounters), (1000, bumpWindowCounters), (1000, bumpWindowCounters)]

/-- Two active keys with equal effective window counts but different
`lastUsed` values, stored in the order `"b"` before `"a"`. -/
def tieDocB : KeyDoc :=
  { subscriptionId := "b"
    plan := "pro"
    usedInWindow := 0
    windowStart := 0
    usedDaily := 0
    dayStart := 0
    status := "active"
    rateLimit30s := 35
    dailyLimit := 100000
    avgRequestIntervalMs := 857
    lastUsed := 100 }

/-- Companion key of `tieDocB` with the lexicographically smaller id and the
older `lastUsed`. -/
def tieDocA : KeyDoc :=
  { tieDocB with subscriptionId := "a", lastUsed := 50 }

/-- Snapshot holding `tieDocB` before `tieDocA`. -/
def tieStore : List KeyDoc := [tieDocB, tieDocA]

/-- Per-document effect of the exhausted-marking side writes of the candidate
loop, valid whenever subscription ids are unique in the store. -/
def exhaustMark (now : Nat) (doc : KeyDoc) : KeyDoc :=
  if shouldMarkExhausted now doc then { doc with status := "exhausted" } else doc

/-- Subscription ids of a store, in document order. -/
def idsOf (store : List KeyDoc) : List String :=
  store.map (fun d => d.subscriptionId)

/-- Store invariant carried by the engine proofs: unique subscription ids,
positive limits (every registered plan yields 35/100000 or 170/500000), and
both counters within their limits. -/
def StoreInv (store : List KeyDoc) : Prop :=
  (idsOf store).Nodup ∧
  ∀ d ∈ store, 1 ≤ d.rateLimit30s ∧ 1 ≤ d.dailyLimit ∧
    d.usedInWindow ≤ d.rateLimit30s ∧ d.usedDaily ≤ d.dailyLimit

instance (store : List KeyDoc) : Decidable (StoreInv store) := by
  unfold StoreInv idsOf
  infer_instance

/-- A banned key whose day anchor is more than 24 h old. -/
def bannedOldDoc : KeyDoc :=
  { proKeyDoc with subscriptionId := "banned_key", status := "banned", usedDaily := 5 }

/-- An exhausted key whose day anchor is more than 24 h old. -/
def exhaustedOldDoc : KeyDoc :=
  { proKeyDoc with subscriptionId := "exhausted_key", status := "exhausted", usedDaily := 7 }

/-- An active key whose 24-hour window has not yet elapsed at clock value
`DAY_MS`. -/
def freshAnchorDoc : KeyDoc :=
  { proKeyDoc with subscriptionId := "fresh_key", dayStart := 1, windowStart := 1 }

/-- Demo store for the day sweep: one banned, one exhausted and one fresh
key. -/
def sweepDemoStore : List KeyDoc := [bannedOldDoc, exhaustedOldDoc, freshAnchorDoc]

/-- Demo store holding a banned key next to an active one. -/
def bannedDemoStore : List KeyDoc := [bannedOldDoc, proKeyDoc]

/-- C1.  The claim asserts a spacing guard: `getAvailableKey` must never
return a key while `now < lastUsed + avgIntervalMs`.  The candidate filter of
the source checks only status, the day quota and the window quota; `lastUsed`
and `avgRequestIntervalMs` are never consulted.  Concretely, a freshly
registered `pro` key is reserved at time 1000 and a second call at the very
same instant — far inside the 857 ms interval — succeeds again, so two
consecutive reservations of the same key are 0 ms apart. -/
theorem c1_spacing_guard_absent :
    registerKey [] "single_key" "pro" 0 = .ok [proKeyDoc] ∧
    (getAvailableKeySeq [1000] [proKeyDoc]).reservation = some ("single_key", "pro") ∧
    (getAvailableKeySeq [1000] [proKeyDoc]).store = [proKeyDocUsed] ∧
    1000 < proKeyDocUsed.lastUsed + proKeyDocUsed.avgRequestIntervalMs ∧
    (getAvailableKeySeq [1000] [proKeyDocUsed]).reservation = some ("single_key", "pro") :=
  ⟨rfl, rfl, rfl, by decide, rfl⟩

/-- C4.  The claim states the stored intervals are 860 ms for `pro` and
170 ms for `ultimate`.  `getRateLimits` computes
`Math.floor(30000 / rateLimit30s)`, which is 857 for `pro` and 176 for
`ultimate`; the window and daily limits do match the claim. -/
theorem c4_plan_policy_interval_values :
    getRateLimits "pro" =
      { rateLimit30s := 35, dailyLimit := 100000, avgRequestIntervalMs := 857 } ∧
    getRateLimits "ultimate" =
      { rateLimit30s := 170, dailyLimit := 500000, avgRequestIntervalMs := 176 } ∧
    (getRateLimits "pro").avgRequestIntervalMs ≠ 860 ∧
    (getRateLimits "ultimate").avgRequestIntervalMs ≠ 170 :=
  ⟨rfl, rfl, by decide, by decide⟩

/-- C5.  The claim describes a reservation descriptor with
`subscriptionId`, `plan`, `avgIntervalMs`, `lastUsed` and
`nextRequestAllowedAt`.  The source returns only
`{ subscriptionId: updatedDoc.subscriptionId, plan: updatedDoc.plan }`; the
embedding therefore yields exactly the pair of those two fields, shown here
by computing a successful reservation in full. -/
theorem c5_reservation_descriptor_shape :
    getAvailableKeySeq [1000] [proKeyDoc] =
      { reservation := some ("single_key", "pro"), store := [proKeyDocUsed], sleptMs := 0 } :=
  rfl

/-- C7.  `getAvailableKey` retries the whole snapshot-and-select procedure:
`maxAttempts = 3`, a 20 ms backoff is slept between attempts (and only
between them), running out of attempts yields the distinguished `none`
rather than an exception, and under a contending writer that defeats every
compare-and-set all three attempts run, 40 ms of backoff accumulate, and the
caller receives `none`. -/
theorem c7_bounded_retry_returns_none :
    maxAttempts = 3 ∧ retryBackoffMs = 20 ∧
    (∀ envs store, getAvailableKeyLoop 0 envs store =
      { reservation := none, store := store, sleptMs := 0 }) ∧
    getAvailableKey contendedEnvs [proKeyDoc] =
      { reservation := none, store := [{ proKeyDoc with usedInWindow := 3 }],
        sleptMs := 2 * retryBackoffMs } :=
  ⟨rfl, rfl, fun _ _ => rfl, rfl⟩

/-- C8 (counterexample).  The claim says ties in effective `usedInWindow`
are broken by ascending `lastUsed` and then by `subscriptionId`.  On a
snapshot storing key `"b"` (lastUsed 100) before key `"a"` (lastUsed 50),
both with effective window count 0, the source's stable sort keeps `"b"`
first and the reservation goes to `"b"`, while the specification's ranking
puts `"a"` first. -/
theorem c8_tie_break_counterexample :
    (rankCandidates (eligibleCandidates 1000 tieStore)).map (fun c => c.doc.subscriptionId) =
      ["b", "a"] ∧
    (specRankCandidates (eligibleCandidates 1000 tieStore)).map (fun c => c.doc.subscriptionId) =
      ["a", "b"] ∧
    (getAvailableKeySeq [1000] tieStore).reservation = some ("b", "pro") ∧
    (["b", "a"] : List String) ≠ ["a", "b"] :=
  ⟨rfl, rfl, rfl, by decide⟩

/-- C6.  Registering an existing key rewrites exactly `plan`,
`rateLimit30s`, `dailyLimit` and `avgRequestIntervalMs` (plus removing the
legacy token fields) on the matching document and leaves `usedInWindow`,
`windowStart`, `usedDaily`, `dayStart`, `lastUsed` and `status` untouched. -/
theorem c6_register_frame (store : List KeyDoc) (id plan : String) (now : Nat)
    (hid : id ≠ "")
    (hex : (store.find? (fun d => d.subscriptionId == id)).isSome = true) :
    registerKey store id plan now =
      .ok (updateFirst (fun d => d.subscriptionId == id)
        (applyRegisterUpdate (jsToLower (if plan = "" then "ultimate" else plan))) store) ∧
    ∀ p d, (applyRegisterUpdate p d).usedInWindow = d.usedInWindow ∧
      (applyRegisterUpdate p d).windowStart = d.windowStart ∧
      (applyRegisterUpdate p d).usedDaily = d.usedDaily ∧
      (applyRegisterUpdate p d).dayStart = d.dayStart ∧
      (applyRegisterUpdate p d).lastUsed = d.lastUsed ∧
      (applyRegisterUpdate p d).status = d.status ∧
      (applyRegisterUpdate p d).subscriptionId = d.subscriptionId ∧
      (applyRegisterUpdate p d).plan = p ∧
      (applyRegisterUpdate p d).rateLimit30s = (getRateLimits p).rateLimit30s ∧
      (applyRegisterUpdate p d).dailyLimit = (getRateLimits p).dailyLimit ∧
      (applyRegisterUpdate p d).avgRequestIntervalMs = (getRateLimits p).avgRequestIntervalMs := by
  constructor
  · unfold registerKey
    rw [if_neg hid]
    cases h : store.find? (fun d => d.subscriptionId == id) with
    | none => rw [h] at hex; simp at hex
    | some d => simp only
  · intro p d
    simp [applyRegisterUpdate]

/-- Closed instance of `c6_register_frame`: re-registering the existing
`single_key` as `ULTIMATE` only swaps plan and limits. -/
theorem c6_register_frame_witness :
    registerKey [proKeyDocUsed] "single_key" "ULTIMATE" 5 =
      .ok (updateFirst (fun d => d.subscriptionId == "single_key")
        (applyRegisterUpdate (jsToLower (if ("ULTIMATE" : String) = "" then "ultimate" else "ULTIMATE")))
        [proKeyDocUsed]) ∧
    ∀ p d, (applyRegisterUpdate p d).usedInWindow = d.usedInWindow ∧
      (applyRegisterUpdate p d).windowStart = d.windowStart ∧
      (applyRegisterUpdate p d).usedDaily = d.usedDaily ∧
      (applyRegisterUpdate p d).dayStart = d.dayStart ∧
      (applyRegisterUpdate p d).lastUsed = d.lastUsed ∧
      (applyRegisterUpdate p d).status = d.status ∧
      (applyRegisterUpdate p d).subscriptionId = d.subscriptionId ∧
      (applyRegisterUpdate p d).plan = p ∧
      (applyRegisterUpdate p d).rateLimit30s = (getRateLimits p).rateLimit30s ∧
      (applyRegisterUpdate p d).dailyLimit = (getRateLimits p).dailyLimit ∧
      (applyRegisterUpdate p d).avgRequestIntervalMs = (getRateLimits p).avgRequestIntervalMs :=
  c6_register_frame [proKeyDocUsed] "single_key" "ULTIMATE" 5 (by decide) (by decide)

/-- C9.  Entry by entry, the limits listing is the status listing projected
onto the limits columns, with `nextRequestAllowedAt` computed as
`lastUsed + avgRequestIntervalMs` and zero for a never-used key. -/
theorem c9_limits_projection (store : List KeyDoc) (i : Nat) (d : KeyDoc)
    (h : (getAllKeysStatus store)[i]? = some d) :
    (getKeyLimits store)[i]? = some (limitsProjection d) ∧
    (limitsProjection d).subscriptionId = d.subscriptionId ∧
    (limitsProjection d).plan = d.plan ∧
    (limitsProjection d).rateLimit30s = d.rateLimit30s ∧
    (limitsProjection d).dailyLimit = d.dailyLimit ∧
    (limitsProjection d).avgRequestIntervalMs = d.avgRequestIntervalMs ∧
    (limitsProjection d).lastUsed = d.lastUsed ∧
    (limitsProjection d).nextRequestAllowedAt =
      (if d.lastUsed = 0 then 0 else d.lastUsed + d.avgRequestIntervalMs) := by
  refine ⟨?_, rfl, rfl, rfl, rfl, rfl, rfl, rfl⟩
  unfold getKeyLimits
  rw [List.getElem?_map, h]
  rfl

/-- Closed instance of `c9_limits_projection` on a one-key store. -/
theorem c9_limits_projection_witness :
    (getKeyLimits [proKeyDocUsed])[0]? = some (limitsProjection proKeyDocUsed) ∧
    (limitsProjection proKeyDocUsed).subscriptionId = proKeyDocUsed.subscriptionId ∧
    (limitsProjection proKeyDocUsed).plan = proKeyDocUsed.plan ∧
    (limitsProjection proKeyDocUsed).rateLimit30s = proKeyDocUsed.rateLimit30s ∧
    (limitsProjection proKeyDocUsed).dailyLimit = proKeyDocUsed.dailyLimit ∧
    (limitsProjection proKeyDocUsed).avgRequestIntervalMs = proKeyDocUsed.avgRequestIntervalMs ∧
    (limitsProjection proKeyDocUsed).lastUsed = proKeyDocUsed.lastUsed ∧
    (limitsProjection proKeyDocUsed).nextRequestAllowedAt =
      (if proKeyDocUsed.lastUsed = 0 then 0
       else proKeyDocUsed.lastUsed + proKeyDocUsed.avgRequestIntervalMs) :=
  c9_limits_projection [proKeyDocUsed] 0 proKeyDocUsed rfl

theorem updateFirst_cons_pos {p : KeyDoc → Bool} {f : KeyDoc → KeyDoc} {d : KeyDoc}
    {rest : List KeyDoc} (h : p d = true) :
    updateFirst p f (d :: rest) = f d :: rest := by
  simp [updateFirst, h]

theorem updateFirst_cons_neg {p : KeyDoc → Bool} {f : KeyDoc → KeyDoc} {d : KeyDoc}
    {rest : List KeyDoc} (h : p d = false) :
    updateFirst p f (d :: rest) = d :: updateFirst p f rest := by
  simp [updateFirst, h]

theorem updateFirst_append_neg {p : KeyDoc → Bool} {f : KeyDoc → KeyDoc}
    {t s : List KeyDoc} (h : ∀ x ∈ t, p x = false) :
    updateFirst p f (t ++ s) = t ++ updateFirst p f s := by
  induction t with
  | nil => rfl
  | cons x xs ih =>
    have hx : p x = false := h x (by simp)
    simp only [List.cons_append, updateFirst_cons_neg hx]
    rw [ih (fun y hy => h y (by simp [hy]))]

theorem updateFirst_idsOf {p : KeyDoc → Bool} {f : KeyDoc → KeyDoc}
    (hf : ∀ d, (f d).subscriptionId = d.subscriptionId) :
    ∀ s : List KeyDoc, idsOf (updateFirst p f s) = idsOf s := by
  intro s
  induction s with
  | nil => rfl
  | cons d rest ih =>
    by_cases h : p d = true
    · rw [updateFirst_cons_pos h]
      simp [idsOf, hf]
    · rw [updateFirst_cons_neg (by simpa using h)]
      simp only [idsOf, List.map_cons] at ih ⊢
      rw [ih]

theorem findOneAndUpdate_idsOf {p : KeyDoc → Bool} {f : KeyDoc → KeyDoc}
    (hf : ∀ d, (f d).subscriptionId = d.subscriptionId) :
    ∀ s : List KeyDoc, idsOf (findOneAndUpdate p f s).2 = idsOf s := by
  intro s
  induction s with
  | nil => rfl
  | cons d rest ih =>
    by_cases h : p d = true
    · simp [findOneAndUpdate, h, idsOf, hf]
    · simp only [findOneAndUpdate, h, if_false, Bool.false_eq_true]
      simp [idsOf] at ih ⊢
      exact ih

theorem findOneAndUpdate_mem {p : KeyDoc → Bool} {f : KeyDoc → KeyDoc} :
    ∀ {s : List KeyDoc} {e : KeyDoc}, e ∈ (findOneAndUpdate p f s).2 →
      e ∈ s ∨ ∃ d ∈ s, p d = true ∧ e = f d := by
  intro s
  induction s with
  | nil => intro e he; simp [findOneAndUpdate] at he
  | cons d rest ih =>
    intro e he
    by_cases h : p d = true
    · simp only [findOneAndUpdate, h, if_true] at he
      rcases List.mem_cons.mp he with he | he
      · exact Or.inr ⟨d, by simp, h, he⟩
      · exact Or.inl (List.mem_cons_of_mem _ he)
    · simp only [findOneAndUpdate, h, if_false, Bool.false_eq_true] at he
      rcases List.mem_cons.mp he with he | he
      · exact Or.inl (he ▸ List.mem_cons_self _ _)
      · rcases ih he with h1 | ⟨x, hx, hpx, hex⟩
        · exact Or.inl (List.mem_cons_of_mem _ h1)
        · exact Or.inr ⟨x, List.mem_cons_of_mem _ hx, hpx, hex⟩

theorem findOneAndUpdate_preserve {p : KeyDoc → Bool} {f : KeyDoc → KeyDoc} :
    ∀ {s : List KeyDoc} {e : KeyDoc}, e ∈ s → p e = false →
      e ∈ (findOneAndUpdate p f s).2 := by
  intro s
  induction s with
  | nil => intro e he; simp at he
  | cons d rest ih =>
    intro e he hpe
    by_cases h : p d = true
    · simp only [findOneAndUpdate, h, if_true]
      rcases List.mem_cons.mp he with he | he
      · exact absurd (he ▸ hpe) (by simp [h])
      · exact List.mem_cons_of_mem _ he
    · simp only [findOneAndUpdate, h, if_false, Bool.false_eq_true]
      rcases List.mem_cons.mp he with he | he
      · exact he ▸ List.mem_cons_self _ _
      · exact List.mem_cons_of_mem _ (ih he hpe)

theorem findOneAndUpdate_success {p : KeyDoc → Bool} {f : KeyDoc → KeyDoc} :
    ∀ {s : List KeyDoc} {u : KeyDoc}, (findOneAndUpdate p f s).1 = some u →
      ∃ d ∈ s, p d = true ∧ u = f d := by
  intro s
  induction s with
  | nil => intro u hu; simp [findOneAndUpdate] at hu
  | cons d rest ih =>
    intro u hu
    by_cases h : p d = true
    · simp only [findOneAndUpdate, h, if_true, Option.some.injEq] at hu
      exact ⟨d, by simp, h, hu.symm⟩
    · simp only [findOneAndUpdate, h, if_false, Bool.false_eq_true] at hu
      rcases ih hu with ⟨x, hx, hpx, hux⟩
      exact ⟨x, List.mem_cons_of_mem _ hx, hpx, hux⟩

theorem findOneAndUpdate_none {p : KeyDoc → Bool} {f : KeyDoc → KeyDoc} :
    ∀ {s : List KeyDoc}, (findOneAndUpdate p f s).1 = none →
      (findOneAndUpdate p f s).2 = s := by
  intro s
  induction s with
  | nil => intro _; rfl
  | cons d rest ih =>
    intro h
    by_cases hp : p d = true
    · simp [findOneAndUpdate, hp] at h
    · simp only [findOneAndUpdate, hp, if_false, Bool.false_eq_true] at h ⊢
      rw [ih h]

theorem sweepDocs_idsOf {cond : KeyDoc → Bool} {upd : KeyDoc → KeyDoc → KeyDoc}
    (hid : ∀ snap d, (upd snap d).subscriptionId = d.subscriptionId) :
    ∀ (docs store : List KeyDoc), idsOf (sweepDocs cond upd docs store) = idsOf store := by
  intro docs
  induction docs with
  | nil => intro store; rfl
  | cons doc rest ih =>
    intro store
    by_cases h : cond doc = true
    · simp only [sweepDocs, h, if_true]
      rw [ih, updateFirst_idsOf (hid doc)]
    · simp only [sweepDocs, h, if_false, Bool.false_eq_true]
      exact ih store

theorem sweepDocs_eq_map {cond : KeyDoc → Bool} {upd : KeyDoc → KeyDoc → KeyDoc}
    (hid : ∀ snap d, (upd snap d).subscriptionId = d.subscriptionId) :
    ∀ (docs t : List KeyDoc), (idsOf (t ++ docs)).Nodup →
      sweepDocs cond upd docs (t ++ docs) =
        t ++ docs.map (fun doc => if cond doc then upd doc doc else doc) := by
  intro docs
  induction docs with
  | nil => intro t _; simp [sweepDocs]
  | cons doc rest ih =>
    intro t hnd
    have hne : ∀ x ∈ t, (x.subscriptionId == doc.subscriptionId) = false := by
      intro x hx
      have hsplit := (List.nodup_append.mp (by simpa [idsOf] using hnd)).2.2
      have hxid : x.subscriptionId ∈ t.map (fun d => d.subscriptionId) :=
        List.mem_map_of_mem _ hx
      by_contra hc
      have heq : x.subscriptionId = doc.subscriptionId := by
        simpa using hc
      exact hsplit hxid (by rw [heq]; simp)
    have hnd2 : (idsOf ((t ++ [if cond doc then upd doc doc else doc]) ++ rest)).Nodup := by
      have : idsOf ((t ++ [if cond doc then upd doc doc else doc]) ++ rest) =
          idsOf (t ++ doc :: rest) := by
        by_cases h : cond doc = true <;> simp [idsOf, h, hid]
      rw [this]
      exact hnd
    by_cases h : cond doc = true
    · simp only [sweepDocs, h, if_true]
      rw [updateFirst_append_neg hne, updateFirst_cons_pos (by simp)]
      have hshape : t ++ upd doc doc :: rest = (t ++ [upd doc doc]) ++ rest := by simp
      rw [hshape]
      rw [ih (t ++ [upd doc doc]) (by simpa [h] using hnd2)]
      simp [h]
    · simp only [sweepDocs, h, if_false, Bool.false_eq_true]
      have hshape : t ++ doc :: rest = (t ++ [doc]) ++ rest := by simp
      rw [hshape]
      rw [ih (t ++ [doc]) (by simpa [h] using hnd2)]
      simp [h]

theorem markExhausted_eq_map (now : Nat) (store : List KeyDoc)
    (hnd : (idsOf store).Nodup) :
    markExhausted now store store = store.map (exhaustMark now) := by
  have h := @sweepDocs_eq_map (shouldMarkExhausted now)
    (fun _ d => { d with status := "exhausted" })
    (fun _ _ => rfl) store [] (by simpa using hnd)
  simpa [markExhausted, exhaustMark] using h

theorem exhaustMark_subscriptionId (now : Nat) (d : KeyDoc) :
    (exhaustMark now d).subscriptionId = d.subscriptionId := by
  unfold exhaustMark
  by_cases h : shouldMarkExhausted now d = true <;> simp [h]

theorem exhaustMark_frame (now : Nat) (d : KeyDoc) :
    (exhaustMark now d).usedInWindow = d.usedInWindow ∧
    (exhaustMark now d).usedDaily = d.usedDaily ∧
    (exhaustMark now d).rateLimit30s = d.rateLimit30s ∧
    (exhaustMark now d).dailyLimit = d.dailyLimit := by
  unfold exhaustMark
  by_cases h : shouldMarkExhausted now d = true <;> simp [h]

theorem exhaustMark_of_eligible {now : Nat} {d : KeyDoc}
    (h : isEligible now d = true) : exhaustMark now d = d := by
  unfold exhaustMark
  have hmark : shouldMarkExhausted now d = false := by
    unfold isEligible at h
    unfold shouldMarkExhausted
    cases hs : (d.status == "active") <;>
      cases hday : (candidateOf now d).dayExpired <;>
        cases hcnt : decide (d.dailyLimit ≤ (candidateOf now d).dayCount) <;>
          simp_all
  simp [hmark]

theorem exhaustMark_of_not_active {now : Nat} {d : KeyDoc}
    (h : d.status ≠ "active") : exhaustMark now d = d := by
  unfold exhaustMark
  have hs : (d.status == "active") = false := by
    simpa using h
  have hmk : shouldMarkExhausted now d = false := by
    unfold shouldMarkExhausted
    simp [hs]
  simp [hmk]

theorem mem_eligibleCandidates {now : Nat} {docs : List KeyDoc} {c : Candidate}
    (h : c ∈ eligibleCandidates now docs) :
    ∃ doc ∈ docs, isEligible now doc = true ∧ c = candidateOf now doc := by
  unfold eligibleCandidates at h
  rcases List.mem_map.mp h with ⟨doc, hdoc, hc⟩
  rcases List.mem_filter.mp hdoc with ⟨hmem, helig⟩
  exact ⟨doc, hmem, helig, hc.symm⟩

theorem eligible_status {now : Nat} {d : KeyDoc} (h : isEligible now d = true) :
    d.status = "active" := by
  unfold isEligible at h
  simp only [Bool.and_eq_true] at h
  have hs := h.1.1
  simpa using hs

theorem eligible_strict {now : Nat} {d : KeyDoc} (h : isEligible now d = true)
    (hw : 1 ≤ d.rateLimit30s) (hd : 1 ≤ d.dailyLimit) :
    (candidateOf now d).windowCount < d.rateLimit30s ∧
    (candidateOf now d).dayCount < d.dailyLimit := by
  unfold isEligible at h
  cases hwexp : windowExpiredAt now d <;> cases hdexp : dayExpiredAt now d <;>
    simp_all [candidateOf] <;> omega

theorem casUpdate_fields (t : Nat) (c : Candidate) (d : KeyDoc) :
    (casUpdate t c d).subscriptionId = d.subscriptionId ∧
    (casUpdate t c d).plan = d.plan ∧
    (casUpdate t c d).rateLimit30s = d.rateLimit30s ∧
    (casUpdate t c d).dailyLimit = d.dailyLimit ∧
    (casUpdate t c d).usedInWindow = (if c.windowExpired then 0 else c.windowCount) + 1 ∧
    (casUpdate t c d).usedDaily = (if c.dayExpired then 0 else c.dayCount) + 1 ∧
    (casUpdate t c d).lastUsed = t := by
  simp [casUpdate]

theorem casUpdate_bounds {now : Nat} {doc d : KeyDoc} (t : Nat)
    (helig : isEligible now doc = true)
    (hw : 1 ≤ doc.rateLimit30s) (hdl : 1 ≤ doc.dailyLimit)
    (hrl : d.rateLimit30s = doc.rateLimit30s) (hdll : d.dailyLimit = doc.dailyLimit) :
    (casUpdate t (candidateOf now doc) d).usedInWindow ≤
      (casUpdate t (candidateOf now doc) d).rateLimit30s ∧
    (casUpdate t (candidateOf now doc) d).usedDaily ≤
      (casUpdate t (candidateOf now doc) d).dailyLimit := by
  obtain ⟨hwlt, hdlt⟩ := eligible_strict helig hw hdl
  obtain ⟨_, _, hr, hd2, hu, hud, _⟩ := casUpdate_fields t (candidateOf now doc) d
  rw [hu, hud, hr, hd2, hrl, hdll]
  constructor
  · cases hexp : (candidateOf now doc).windowExpired <;> simp [hexp] <;> omega
  · cases hexp : (candidateOf now doc).dayExpired <;> simp [hexp] <;> omega

theorem casFilterMatches_spec {snap d : KeyDoc} (h : casFilterMatches snap d = true) :
    d.subscriptionId = snap.subscriptionId ∧ d.usedInWindow = snap.usedInWindow ∧
    d.windowStart = snap.windowStart ∧ d.usedDaily = snap.usedDaily ∧
    d.dayStart = snap.dayStart ∧ d.status = snap.status := by
  unfold casFilterMatches at h
  simp only [Bool.and_eq_true, beq_iff_eq] at h
  tauto

theorem tryCandidates_idsOf (t : Nat) :
    ∀ (cs : List Candidate) (s : List KeyDoc), idsOf (tryCandidates t cs s).2 = idsOf s := by
  intro cs
  induction cs with
  | nil => intro s; rfl
  | cons c rest ih =>
    intro s
    unfold tryCandidates
    have hids : idsOf (findOneAndUpdate (casFilterMatches c.doc) (casUpdate t c) s).2 = idsOf s :=
      findOneAndUpdate_idsOf (fun d => by simp [casUpdate]) s
    cases hr : (findOneAndUpdate (casFilterMatches c.doc) (casUpdate t c) s).1 with
    | some u => simpa [hr] using hids
    | none =>
      simp only [hr]
      rw [ih]
      exact hids

theorem tryCandidates_mem (t : Nat) :
    ∀ {cs : List Candidate} {s : List KeyDoc} {e : KeyDoc}, e ∈ (tryCandidates t cs s).2 →
      e ∈ s ∨ ∃ c ∈ cs, ∃ d ∈ s, casFilterMatches c.doc d = true ∧ e = casUpdate t c d := by
  intro cs
  induction cs with
  | nil => intro s e he; exact Or.inl he
  | cons c rest ih =>
    intro s e he
    unfold tryCandidates at he
    cases hr : (findOneAndUpdate (casFilterMatches c.doc) (casUpdate t c) s).1 with
    | some u =>
      simp only [hr] at he
      rcases findOneAndUpdate_mem he with h1 | ⟨d, hd, hpd, hed⟩
      · exact Or.inl h1
      · exact Or.inr ⟨c, by simp, d, hd, hpd, hed⟩
    | none =>
      simp only [hr] at he
      rw [findOneAndUpdate_none hr] at he
      rcases ih he with h1 | ⟨c2, hc2, d, hd, hpd, hed⟩
      · exact Or.inl h1
      · exact Or.inr ⟨c2, List.mem_cons_of_mem _ hc2, d, hd, hpd, hed⟩

theorem tryCandidates_success (t : Nat) :
    ∀ {cs : List Candidate} {s : List KeyDoc} {r : String × String},
      (tryCandidates t cs s).1 = some r →
      ∃ c ∈ cs, ∃ d ∈ s, casFilterMatches c.doc d = true ∧ r = (d.subscriptionId, d.plan) := by
  intro cs
  induction cs with
  | nil => intro s r hr; simp [tryCandidates] at hr
  | cons c rest ih =>
    intro s r hr
    unfold tryCandidates at hr
    cases hu : (findOneAndUpdate (casFilterMatches c.doc) (casUpdate t c) s).1 with
    | some u =>
      simp only [hu, Option.some.injEq] at hr
      rcases findOneAndUpdate_success hu with ⟨d, hd, hpd, hud⟩
      refine ⟨c, by simp, d, hd, hpd, ?_⟩
      rw [← hr, hud]
      simp [casUpdate]
    | none =>
      simp only [hu] at hr
      rw [findOneAndUpdate_none hu] at hr
      rcases ih hr with ⟨c2, hc2, d, hd, hpd, hrd⟩
      exact ⟨c2, List.mem_cons_of_mem _ hc2, d, hd, hpd, hrd⟩

theorem tryCandidates_preserve (t : Nat) :
    ∀ {cs : List Candidate} {s : List KeyDoc} {e : KeyDoc}, e ∈ s →
      (∀ c ∈ cs, casFilterMatches c.doc e = false) →
      e ∈ (tryCandidates t cs s).2 := by
  intro cs
  induction cs with
  | nil => intro s e he _; exact he
  | cons c rest ih =>
    intro s e he hall
    unfold tryCandidates
    cases hr : (findOneAndUpdate (casFilterMatches c.doc) (casUpdate t c) s).1 with
    | some u =>
      simp only [hr]
      exact findOneAndUpdate_preserve he (hall c (by simp))
    | none =>
      simp only [hr]
      rw [findOneAndUpdate_none hr]
      exact ih he (fun c2 hc2 => hall c2 (List.mem_cons_of_mem _ hc2))

theorem attempt_cases (now : Nat) (interf : List KeyDoc → List KeyDoc) (store : List KeyDoc) :
    (store.isEmpty = true ∧ getAvailableKeyAttempt now interf store = (.done none, store)) ∨
    (store.isEmpty = false ∧ (eligibleCandidates now store).isEmpty = true ∧
      getAvailableKeyAttempt now interf store = (.done none, markExhausted now store store)) ∨
    (store.isEmpty = false ∧ (eligibleCandidates now store).isEmpty = false ∧
      ((∃ r, (tryCandidates now (rankCandidates (eligibleCandidates now store))
          (interf (markExhausted now store store))).1 = some r ∧
        getAvailableKeyAttempt now interf store =
          (.done (some r), (tryCandidates now (rankCandidates (eligibleCandidates now store))
            (interf (markExhausted now store store))).2)) ∨
       ((tryCandidates now (rankCandidates (eligibleCandidates now store))
          (interf (markExhausted now store store))).1 = none ∧
        getAvailableKeyAttempt now interf store =
          (.noCommit, (tryCandidates now (rankCandidates (eligibleCandidates now store))
            (interf (markExhausted now store store))).2)))) := by
  by_cases hemp : store.isEmpty = true
  · exact Or.inl ⟨hemp, by unfold getAvailableKeyAttempt; rw [if_pos hemp]⟩
  · have hemp2 : store.isEmpty = false := by simpa using hemp
    by_cases hcs : (eligibleCandidates now store).isEmpty = true
    · refine Or.inr (Or.inl ⟨hemp2, hcs, ?_⟩)
      unfold getAvailableKeyAttempt
      simp [hemp2, hcs]
    · have hcs2 : (eligibleCandidates now store).isEmpty = false := by simpa using hcs
      refine Or.inr (Or.inr ⟨hemp2, hcs2, ?_⟩)
      cases hr : (tryCandidates now (rankCandidates (eligibleCandidates now store))
          (interf (markExhausted now store store))).1 with
      | some r =>
        refine Or.inl ⟨r, rfl, ?_⟩
        unfold getAvailableKeyAttempt
        simp [hemp2, hcs2, hr]
      | none =>
        refine Or.inr ⟨rfl, ?_⟩
        unfold getAvailableKeyAttempt
        simp [hemp2, hcs2, hr]

theorem markExhausted_idsOf (now : Nat) (docs store : List KeyDoc) :
    idsOf (markExhausted now docs store) = idsOf store := by
  unfold markExhausted
  exact @sweepDocs_idsOf (shouldMarkExhausted now)
    (fun _ d => { d with status := "exhausted" }) (fun _ _ => rfl) docs store

theorem attempt_idsOf (now : Nat) (interf : List KeyDoc → List KeyDoc)
    (hid : ∀ s, interf s = s) (store : List KeyDoc) :
    idsOf (getAvailableKeyAttempt now interf store).2 = idsOf store := by
  rcases attempt_cases now interf store with ⟨_, heq⟩ | ⟨_, _, heq⟩ |
    ⟨_, _, ⟨r, _, heq⟩ | ⟨_, heq⟩⟩
  · rw [heq]
  · rw [heq]
    exact markExhausted_idsOf now store store
  · rw [heq]
    show idsOf (tryCandidates now (rankCandidates (eligibleCandidates now store))
      (interf (markExhausted now store store))).2 = idsOf store
    rw [tryCandidates_idsOf, hid]
    exact markExhausted_idsOf now store store
  · rw [heq]
    show idsOf (tryCandidates now (rankCandidates (eligibleCandidates now store))
      (interf (markExhausted now store store))).2 = idsOf store
    rw [tryCandidates_idsOf, hid]
    exact markExhausted_idsOf now store store

theorem mem_markExhausted {now : Nat} {store : List KeyDoc} (hnd : (idsOf store).Nodup)
    {e : KeyDoc} (he : e ∈ markExhausted now store store) :
    ∃ x ∈ store, e = exhaustMark now x := by
  rw [markExhausted_eq_map now store hnd] at he
  rcases List.mem_map.mp he with ⟨x, hx, hex⟩
  exact ⟨x, hx, hex.symm⟩

theorem mem_markExhausted_of_mem {now : Nat} {store : List KeyDoc}
    (hnd : (idsOf store).Nodup) {x : KeyDoc} (hx : x ∈ store) :
    exhaustMark now x ∈ markExhausted now store store := by
  rw [markExhausted_eq_map now store hnd]
  exact List.mem_map_of_mem _ hx

theorem cas_target_eq {now : Nat} {store : List KeyDoc} (hnd : (idsOf store).Nodup)
    {doc d : KeyDoc} (hdoc : doc ∈ store) (helig : isEligible now doc = true)
    (hd : d ∈ markExhausted now store store)
    (hmatch : casFilterMatches (candidateOf now doc).doc d = true) :
    d = doc := by
  rcases mem_markExhausted hnd hd with ⟨x, hx, hex⟩
  have hid : d.subscriptionId = doc.subscriptionId := by
    have hspec := casFilterMatches_spec hmatch
    simpa [candidateOf] using hspec.1
  have hxid : x.subscriptionId = doc.subscriptionId := by
    rw [← exhaustMark_subscriptionId now x, ← hex]
    exact hid
  have hxeq : x = doc := by
    have hinj := List.inj_on_of_nodup_map (by simpa [idsOf] using hnd)
    exact hinj hx hdoc hxid
  rw [hex, hxeq, exhaustMark_of_eligible helig]

theorem markExhausted_inv {now : Nat} {store : List KeyDoc} (h : StoreInv store) :
    StoreInv (markExhausted now store store) := by
  obtain ⟨hnd, hbounds⟩ := h
  constructor
  · rw [markExhausted_idsOf]
    exact hnd
  · intro e he
    rcases mem_markExhausted hnd he with ⟨x, hx, hex⟩
    obtain ⟨h1, h2, h3, h4⟩ := exhaustMark_frame now x
    rw [hex, h1, h2, h3, h4]
    exact hbounds x hx

theorem attempt_inv (now : Nat) (interf : List KeyDoc → List KeyDoc)
    (hid : ∀ s, interf s = s) (store : List KeyDoc) (h : StoreInv store) :
    StoreInv (getAvailableKeyAttempt now interf store).2 := by
  obtain ⟨hnd, hbounds⟩ := h
  rcases attempt_cases now interf store with ⟨_, heq⟩ | ⟨_, _, heq⟩ | ⟨_, _, hca⟩
  · rw [heq]
    exact ⟨hnd, hbounds⟩
  · rw [heq]
    exact markExhausted_inv ⟨hnd, hbounds⟩
  · have hres : (getAvailableKeyAttempt now interf store).2 =
        (tryCandidates now (rankCandidates (eligibleCandidates now store))
          (interf (markExhausted now store store))).2 := by
      rcases hca with ⟨r, _, heq⟩ | ⟨_, heq⟩ <;> rw [heq]
    rw [hres, hid]
    have hinv1 : StoreInv (markExhausted now store store) := markExhausted_inv ⟨hnd, hbounds⟩
    obtain ⟨hnd1, hbounds1⟩ := hinv1
    constructor
    · rw [tryCandidates_idsOf]
      exact hnd1
    · intro e he
      rcases tryCandidates_mem now he with h1 | ⟨c, hc, d, hd, hmatch, hed⟩
      · exact hbounds1 e h1
      · have hc2 : c ∈ eligibleCandidates now store := (List.mem_insertionSort candLE).mp hc
        rcases mem_eligibleCandidates hc2 with ⟨doc, hdoc, helig, hcdef⟩
        have hdeq : d = doc :=
          cas_target_eq hnd hdoc helig hd (by rw [← hcdef]; exact hmatch)
        obtain ⟨hpos1, hpos2, _, _⟩ := hbounds doc hdoc
        have hb := casUpdate_bounds now helig hpos1 hpos2
          (show d.rateLimit30s = doc.rateLimit30s by rw [hdeq])
          (show d.dailyLimit = doc.dailyLimit by rw [hdeq])
        obtain ⟨_, _, f3, f4, _, _, _⟩ := casUpdate_fields now (candidateOf now doc) d
        refine ⟨?_, ?_, ?_, ?_⟩
        · rw [hed, hcdef, f3, hdeq]
          exact hpos1
        · rw [hed, hcdef, f4, hdeq]
          exact hpos2
        · rw [hed, hcdef]
          exact hb.1
        · rw [hed, hcdef]
          exact hb.2

theorem attempt_not_active (now : Nat) (interf : List KeyDoc → List KeyDoc)
    (hid : ∀ s, interf s = s) (store : List KeyDoc) (b : KeyDoc)
    (hnd : (idsOf store).Nodup) (hb : b ∈ store) (hstatus : b.status ≠ "active") :
    b ∈ (getAvailableKeyAttempt now interf store).2 ∧
    ∀ pl, (getAvailableKeyAttempt now interf store).1 ≠ .done (some (b.subscriptionId, pl)) := by
  have hbmark : b ∈ markExhausted now store store := by
    have := @mem_markExhausted_of_mem now store hnd b hb
    rwa [exhaustMark_of_not_active hstatus] at this
  have hnomatch : ∀ c ∈ rankCandidates (eligibleCandidates now store),
      casFilterMatches c.doc b = false := by
    intro c hc
    have hc2 : c ∈ eligibleCandidates now store := (List.mem_insertionSort candLE).mp hc
    rcases mem_eligibleCandidates hc2 with ⟨doc, _, helig, hcdef⟩
    by_contra hcontra
    have htrue : casFilterMatches c.doc b = true := by
      cases hval : casFilterMatches c.doc b
      · exact absurd hval hcontra
      · rfl
    have hspec := casFilterMatches_spec htrue
    have : b.status = "active" := by
      rw [hspec.2.2.2.2.2, hcdef]
      exact eligible_status helig
    exact hstatus this
  rcases attempt_cases now interf store with ⟨_, heq⟩ | ⟨_, _, heq⟩ | ⟨_, _, hca⟩
  · rw [heq]
    exact ⟨hb, fun pl h => by simp at h⟩
  · rw [heq]
    exact ⟨hbmark, fun pl h => by simp at h⟩
  · rcases hca with ⟨r, hr, heq⟩ | ⟨hr, heq⟩
    · rw [heq]
      constructor
      · show b ∈ (tryCandidates now (rankCandidates (eligibleCandidates now store))
          (interf (markExhausted now store store))).2
        rw [hid]
        exact tryCandidates_preserve now hbmark hnomatch
      · intro pl h
        simp only [AttemptStep.done.injEq, Option.some.injEq] at h
        rw [hid] at hr
        rcases tryCandidates_success now hr with ⟨c, hc, d, hd, hmatch, hrd⟩
        have hc2 : c ∈ eligibleCandidates now store := (List.mem_insertionSort candLE).mp hc
        rcases mem_eligibleCandidates hc2 with ⟨doc, _, helig, hcdef⟩
        have hdact : d.status = "active" := by
          have hspec := casFilterMatches_spec hmatch
          rw [hspec.2.2.2.2.2, hcdef]
          exact eligible_status helig
        have hndm : (idsOf (markExhausted now store store)).Nodup := by
          rw [markExhausted_idsOf]
          exact hnd
        have hdb : d = b := by
          have hinj := List.inj_on_of_nodup_map (by simpa [idsOf] using hndm)
          refine hinj hd hbmark ?_
          have : r = (d.subscriptionId, d.plan) := hrd
          rw [h] at this
          exact (Prod.mk.injEq _ _ _ _ ▸ this).1.symm ▸ rfl
        rw [hdb] at hdact
        exact hstatus hdact
    · rw [heq]
      constructor
      · show b ∈ (tryCandidates now (rankCandidates (eligibleCandidates now store))
          (interf (markExhausted now store store))).2
        rw [hid]
        exact tryCandidates_preserve now hbmark hnomatch
      · intro pl h
        simp at h

theorem headD_id {envs : List (Nat × (List KeyDoc → List KeyDoc))}
    (henvs : ∀ e ∈ envs, ∀ s, e.2 s = s) :
    ∀ s, ((envs.headD (0, fun s => s)).2) s = s := by
  cases envs with
  | nil => intro s; rfl
  | cons e es => intro s; exact henvs e (by simp) s

theorem tail_id {envs : List (Nat × (List KeyDoc → List KeyDoc))}
    (henvs : ∀ e ∈ envs, ∀ s, e.2 s = s) :
    ∀ e ∈ envs.tail, ∀ s, e.2 s = s :=
  fun e he s => henvs e (List.mem_of_mem_tail he) s

theorem seqLoop_idsOf : ∀ (fuel : Nat) (envs : List (Nat × (List KeyDoc → List KeyDoc))),
    (∀ e ∈ envs, ∀ s, e.2 s = s) → ∀ store,
    idsOf (getAvailableKeyLoop fuel envs store).store = idsOf store := by
  intro fuel
  induction fuel with
  | zero => intro envs _ store; rfl
  | succ n ih =>
    intro envs henvs store
    cases hr : (getAvailableKeyAttempt (envs.headD (0, fun s => s)).1
        (envs.headD (0, fun s => s)).2 store).1 with
    | done reserved =>
      simp only [getAvailableKeyLoop, hr]
      exact attempt_idsOf _ _ (headD_id henvs) store
    | noCommit =>
      simp only [getAvailableKeyLoop, hr]
      by_cases hn : n = 0
      · simp only [hn, if_true]
        exact attempt_idsOf _ _ (headD_id henvs) store
      · simp only [hn, if_false]
        rw [ih envs.tail (tail_id henvs) _]
        exact attempt_idsOf _ _ (headD_id henvs) store

theorem seqLoop_inv : ∀ (fuel : Nat) (envs : List (Nat × (List KeyDoc → List KeyDoc))),
    (∀ e ∈ envs, ∀ s, e.2 s = s) → ∀ store, StoreInv store →
    StoreInv (getAvailableKeyLoop fuel envs store).store := by
  intro fuel
  induction fuel with
  | zero => intro envs _ store h; exact h
  | succ n ih =>
    intro envs henvs store h
    cases hr : (getAvailableKeyAttempt (envs.headD (0, fun s => s)).1
        (envs.headD (0, fun s => s)).2 store).1 with
    | done reserved =>
      simp only [getAvailableKeyLoop, hr]
      exact attempt_inv _ _ (headD_id henvs) store h
    | noCommit =>
      simp only [getAvailableKeyLoop, hr]
      by_cases hn : n = 0
      · simp only [hn, if_true]
        exact attempt_inv _ _ (headD_id henvs) store h
      · simp only [hn, if_false]
        exact ih envs.tail (tail_id henvs) _ (attempt_inv _ _ (headD_id henvs) store h)

theorem seqLoop_not_active : ∀ (fuel : Nat) (envs : List (Nat × (List KeyDoc → List KeyDoc))),
    (∀ e ∈ envs, ∀ s, e.2 s = s) → ∀ (store : List KeyDoc) (b : KeyDoc),
    (idsOf store).Nodup → b ∈ store → b.status ≠ "active" →
    b ∈ (getAvailableKeyLoop fuel envs store).store ∧
    ∀ pl, (getAvailableKeyLoop fuel envs store).reservation ≠ some (b.subscriptionId, pl) := by
  intro fuel
  induction fuel with
  | zero =>
    intro envs _ store b _ hb _
    exact ⟨hb, fun pl h => Option.noConfusion h⟩
  | succ n ih =>
    intro envs henvs store b hnd hb hstatus
    have hatt := attempt_not_active (envs.headD (0, fun s => s)).1 (envs.headD (0, fun s => s)).2
      (headD_id henvs) store b hnd hb hstatus
    cases hr : (getAvailableKeyAttempt (envs.headD (0, fun s => s)).1
        (envs.headD (0, fun s => s)).2 store).1 with
    | done reserved =>
      simp only [getAvailableKeyLoop, hr]
      refine ⟨hatt.1, ?_⟩
      intro pl h
      apply hatt.2 pl
      rw [hr]
      exact congrArg AttemptStep.done h
    | noCommit =>
      simp only [getAvailableKeyLoop, hr]
      by_cases hn : n = 0
      · simp only [hn, if_true]
        exact ⟨hatt.1, fun pl h => Option.noConfusion h⟩
      · simp only [hn, if_false]
        have hnd2 : (idsOf (getAvailableKeyAttempt (envs.headD (0, fun s => s)).1
            (envs.headD (0, fun s => s)).2 store).2).Nodup := by
          rw [attempt_idsOf _ _ (headD_id henvs) store]
          exact hnd
        exact ih envs.tail (tail_id henvs) _ b hnd2 hatt.1 hstatus

theorem seqEnvs_id (nows : List Nat) :
    ∀ e ∈ nows.map (fun t => (t, fun s : List KeyDoc => s)), ∀ s, e.2 s = s := by
  intro e he s
  rcases List.mem_map.mp he with ⟨t, _, het⟩
  rw [← het]

/-- C2.  Counter-bound invariant: starting from a store with unique ids,
positive limits and in-bound counters, every store a sequential
`getAvailableKey` call leaves behind still has both counters within their
limits; moreover the candidate filter admits only documents whose effective
window count is strictly below `rateLimit30s` and whose effective day count
is strictly below `dailyLimit`, so each committed increment stays in
bounds. -/
theorem c2_counter_bounds (nows : List Nat) (store : List KeyDoc) (hinv : StoreInv store) :
    (∀ d ∈ (getAvailableKeySeq nows store).store,
      d.usedInWindow ≤ d.rateLimit30s ∧ d.usedDaily ≤ d.dailyLimit) ∧
    (∀ now : Nat, ∀ c ∈ eligibleCandidates now store,
      c.windowCount < c.doc.rateLimit30s ∧ c.dayCount < c.doc.dailyLimit) := by
  constructor
  · have h := seqLoop_inv maxAttempts (nows.map (fun t => (t, fun s : List KeyDoc => s)))
      (seqEnvs_id nows) store hinv
    intro d hd
    have hds := h.2 d hd
    exact ⟨hds.2.2.1, hds.2.2.2⟩
  · intro now c hc
    rcases mem_eligibleCandidates hc with ⟨doc, hdoc, helig, hcdef⟩
    obtain ⟨hp1, hp2, _, _⟩ := hinv.2 doc hdoc
    have hstrict := eligible_strict helig hp1 hp2
    rw [hcdef]
    exact hstrict

/-- Closed instance of `c2_counter_bounds` on a one-key `pro` store. -/
theorem c2_counter_bounds_witness :
    (∀ d ∈ (getAvailableKeySeq [1000] [proKeyDoc]).store,
      d.usedInWindow ≤ d.rateLimit30s ∧ d.usedDaily ≤ d.dailyLimit) ∧
    (∀ now : Nat, ∀ c ∈ eligibleCandidates now [proKeyDoc],
      c.windowCount < c.doc.rateLimit30s ∧ c.dayCount < c.doc.dailyLimit) :=
  c2_counter_bounds [1000] [proKeyDoc] (by decide)

/-- C3.  The engine never selects or touches a key that is not `active`:
across any sequence of sequential `getAvailableKey` calls on a store with
unique ids, a document whose status is `banned` or `exhausted` survives
every call byte-for-byte and no call ever returns its `subscriptionId` — so
`getAvailableKey` never returns a banned or exhausted key, never writes any
field of a banned key, and after any sequence of calls a banned key's
status is still `banned` (the surviving document is the original one,
status field included). -/
theorem c3_banned_terminal (nowss : List (List Nat)) (store : List KeyDoc) (b : KeyDoc)
    (hnd : (idsOf store).Nodup) (hb : b ∈ store)
    (hstatus : b.status = "banned" ∨ b.status = "exhausted") :
    b ∈ (runCallsSeq nowss store).1 ∧
    ∀ r ∈ (runCallsSeq nowss store).2, ∀ pl, r ≠ some (b.subscriptionId, pl) := by
  have hna : b.status ≠ "active" := by
    rcases hstatus with h | h <;> rw [h] <;> decide
  clear hstatus
  induction nowss generalizing store with
  | nil =>
    refine ⟨hb, ?_⟩
    intro r hr
    simp [runCallsSeq] at hr
  | cons nows rest ih =>
    have henvs := seqEnvs_id nows
    have hcall := seqLoop_not_active maxAttempts
      (nows.map (fun t => (t, fun s : List KeyDoc => s))) henvs store b hnd hb hna
    have hids : idsOf (getAvailableKeySeq nows store).store = idsOf store :=
      seqLoop_idsOf maxAttempts _ henvs store
    have hnd2 : (idsOf (getAvailableKeySeq nows store).store).Nodup := by
      rw [hids]
      exact hnd
    have hrec := ih (getAvailableKeySeq nows store).store hnd2 hcall.1
    constructor
    · exact hrec.1
    · intro r hr pl
      have hsplit : r = (getAvailableKeySeq nows store).reservation ∨
          r ∈ (runCallsSeq rest (getAvailableKeySeq nows store).store).2 := by
        simpa [runCallsSeq] using hr
      rcases hsplit with h1 | h2
      · rw [h1]
        exact hcall.2 pl
      · exact hrec.2 r h2 pl

/-- Closed instance of `c3_banned_terminal`: two calls on a store holding a
banned key next to an active one. -/
theorem c3_banned_terminal_witness :
    bannedOldDoc ∈ (runCallsSeq [[1000], [2000]] bannedDemoStore).1 ∧
    ∀ r ∈ (runCallsSeq [[1000], [2000]] bannedDemoStore).2, ∀ pl,
      r ≠ some (bannedOldDoc.subscriptionId, pl) :=
  c3_banned_terminal [[1000], [2000]] bannedDemoStore bannedOldDoc
    (by decide) (by decide) (Or.inl (by decide))

theorem filter_orderedInsert_windowCount (k : Nat) (c : Candidate) :
    ∀ l : List Candidate,
      (List.orderedInsert candLE c l).filter (fun x => x.windowCount == k) =
        if c.windowCount = k then c :: l.filter (fun x => x.windowCount == k)
        else l.filter (fun x => x.windowCount == k) := by
  intro l
  induction l with
  | nil =>
    by_cases h : c.windowCount = k <;> simp [List.orderedInsert, h]
  | cons d rest ih =>
    by_cases hcd : candLE c d
    · rw [List.orderedInsert_of_le candLE rest hcd]
      by_cases h : c.windowCount = k <;> simp [List.filter_cons, h]
    · have hlt : d.windowCount < c.windowCount := by
        unfold candLE at hcd
        omega
      have hins : List.orderedInsert candLE c (d :: rest) =
          d :: List.orderedInsert candLE c rest := by
        simp only [List.orderedInsert, if_neg hcd]
      rw [hins, List.filter_cons, List.filter_cons, ih]
      by_cases h : c.windowCount = k
      · have hd : (d.windowCount == k) = false := by
          simp only [beq_eq_false_iff_ne]
          omega
        simp [h, hd]
      · simp [h]

theorem filter_rankCandidates (k : Nat) :
    ∀ cs : List Candidate,
      (rankCandidates cs).filter (fun x => x.windowCount == k) =
        cs.filter (fun x => x.windowCount == k) := by
  intro cs
  induction cs with
  | nil => rfl
  | cons c rest ih =>
    show ((List.insertionSort candLE (c :: rest)).filter (fun x => x.windowCount == k)) = _
    rw [List.insertionSort]
    rw [filter_orderedInsert_windowCount k c (List.insertionSort candLE rest)]
    rw [show List.insertionSort candLE rest = rankCandidates rest from rfl, ih]
    rw [List.filter_cons]
    by_cases h : c.windowCount = k <;> simp [h]

/-- C8 (amended).  Within one attempt the candidates are tried in ascending
effective `usedInWindow`; ties keep the snapshot (document) order because
`Array.prototype.sort` is stable — they are not re-ordered by `lastUsed` or
`subscriptionId`.  The ranking is sorted, is a permutation of the candidate
list, and preserves the relative snapshot order of every group with equal
effective window count, so the attempt order is a deterministic function of
the snapshot. -/
theorem c8_ranking_stable_least_used_first (cs : List Candidate) :
    List.Sorted candLE (rankCandidates cs) ∧
    (rankCandidates cs).Perm cs ∧
    ∀ k : Nat, (rankCandidates cs).filter (fun x => x.windowCount == k) =
      cs.filter (fun x => x.windowCount == k) :=
  ⟨List.sorted_insertionSort candLE cs, List.perm_insertionSort candLE cs,
    fun k => filter_rankCandidates k cs⟩

/-- C10.  With unique ids, the day sweep maps every document whose day
anchor is at least `DAY_MS` old — whatever its status, banned included — to
the same document with `usedDaily = 0` and `dayStart = now`, switching
`status` to `active` exactly when it was `exhausted`; documents whose 24 h
window has not elapsed are left completely unchanged, and no other field of
any document is touched. -/
theorem c10_day_sweep_frame (now : Nat) (store : List KeyDoc)
    (hnd : (idsOf store).Nodup) :
    resetDailyForAll now store =
      store.map (fun d =>
        if DAY_MS ≤ now - d.dayStart then resetDailyDocUpdate now d d else d) ∧
    ∀ d : KeyDoc,
      (resetDailyDocUpdate now d d).usedDaily = 0 ∧
      (resetDailyDocUpdate now d d).dayStart = now ∧
      (resetDailyDocUpdate now d d).status =
        (if d.status = "exhausted" then "active" else d.status) ∧
      (resetDailyDocUpdate now d d).subscriptionId = d.subscriptionId ∧
      (resetDailyDocUpdate now d d).plan = d.plan ∧
      (resetDailyDocUpdate now d d).usedInWindow = d.usedInWindow ∧
      (resetDailyDocUpdate now d d).windowStart = d.windowStart ∧
      (resetDailyDocUpdate now d d).rateLimit30s = d.rateLimit30s ∧
      (resetDailyDocUpdate now d d).dailyLimit = d.dailyLimit ∧
      (resetDailyDocUpdate now d d).avgRequestIntervalMs = d.avgRequestIntervalMs ∧
      (resetDailyDocUpdate now d d).lastUsed = d.lastUsed := by
  constructor
  · have hid : ∀ snap d : KeyDoc, (resetDailyDocUpdate now snap d).subscriptionId =
        d.subscriptionId := by
      intro snap d
      unfold resetDailyDocUpdate
      by_cases h : (snap.status == "exhausted") = true <;> simp [h]
    have h := @sweepDocs_eq_map (fun d => decide (DAY_MS ≤ now - d.dayStart))
      (resetDailyDocUpdate now) hid store [] (by simpa using hnd)
    unfold resetDailyForAll
    simpa using h
  · intro d
    unfold resetDailyDocUpdate
    by_cases h : d.status = "exhausted"
    · simp [h]
    · have hb : (d.status == "exhausted") = false := by simpa using h
      simp [h, hb]

/-- Closed instance of `c10_day_sweep_frame` at clock value `DAY_MS` on a
store holding a banned, an exhausted and a fresh key. -/
theorem c10_day_sweep_frame_witness :
    resetDailyForAll DAY_MS sweepDemoStore =
      sweepDemoStore.map (fun d =>
        if DAY_MS ≤ DAY_MS - d.dayStart then resetDailyDocUpdate DAY_MS d d else d) ∧
    ∀ d : KeyDoc,
      (resetDailyDocUpdate DAY_MS d d).usedDaily = 0 ∧
      (resetDailyDocUpdate DAY_MS d d).dayStart = DAY_MS ∧
      (resetDailyDocUpdate DAY_MS d d).status =
        (if d.status = "exhausted" then "active" else d.status) ∧
      (resetDailyDocUpdate DAY_MS d d).subscriptionId = d.subscriptionId ∧
      (resetDailyDocUpdate DAY_MS d d).plan = d.plan ∧
      (resetDailyDocUpdate DAY_MS d d).usedInWindow = d.usedInWindow ∧
      (resetDailyDocUpdate DAY_MS d d).windowStart = d.windowStart ∧
      (resetDailyDocUpdate DAY_MS d d).rateLimit30s = d.rateLimit30s ∧
      (resetDailyDocUpdate DAY_MS d d).dailyLimit = d.dailyLimit ∧
      (resetDailyDocUpdate DAY_MS d d).avgRequestIntervalMs = d.avgRequestIntervalMs ∧
      (resetDailyDocUpdate DAY_MS d d).lastUsed = d.lastUsed :=
  c10_day_sweep_frame DAY_MS sweepDemoStore (by decide)
